import Mathlib

/-!
Shallow embedding of `pkg/eventbus/eventbus.go` from grid-stream-org/go-commons.

A Go buffered channel is modelled as a `Chan`: a capacity, a FIFO buffer of
pending events, and a closed flag.  The bus state holds a heap `chans` of every
channel ever created (a handle is an index into this heap, standing for the
Go channel reference returned by `Subscribe`) together with the registry
`subscribers` of currently-registered handles in subscription order.

Go panics (sending on a closed channel inside `Publish`'s non-blocking
`select`, or `close` of an already-closed channel) are modelled by returning
`none`; a `some` result is a normal, non-panicking return.
-/

namespace EventBus

/-- A Go buffered channel of events: `make(chan any, capacity)` plus its
current buffered contents and whether `close` has been called on it. -/
structure Chan (E : Type) where
  capacity : Nat
  buffer : List E
  closed : Bool
deriving DecidableEq, Repr

/-- The state of an `eventBus`: the heap of all channels ever created
(handles are indices into it) and the registry `subscribers`. -/
structure BusState (E : Type) where
  chans : List (Chan E)
  subscribers : List Nat
deriving DecidableEq, Repr

/-- `New()` — a fresh bus with an empty registry. -/
def New {E : Type} : BusState E := ⟨[], []⟩

/-- `Subscribe(capacity)`: create a fresh channel of the given capacity,
append it to the registry, and return its handle. -/
def Subscribe {E : Type} (s : BusState E) (capacity : Nat) : Nat × BusState E :=
  (s.chans.length,
   { chans := s.chans ++ [{ capacity := capacity, buffer := [], closed := false }],
     subscribers := s.subscribers ++ [s.chans.length] })

/-- The effect of a successful non-blocking send on an open channel:
enqueue if there is room, otherwise drop the event. -/
def push {E : Type} (c : Chan E) (e : E) : Chan E :=
  if c.buffer.length < c.capacity then { c with buffer := c.buffer ++ [e] } else c

/-- `select { case ch <- event: default: }` — a non-blocking send.
Sending on a closed channel panics (`none`). -/
def trySend {E : Type} (c : Chan E) (e : E) : Option (Chan E) :=
  if c.closed then none else some (push c e)

/-- One iteration of `Publish`'s loop: non-blocking send to the channel at
handle `h` in the heap. -/
def sendTo {E : Type} (chans : List (Chan E)) (e : E) (h : Nat) :
    Option (List (Chan E)) :=
  match chans[h]? with
  | none => none
  | some c => (trySend c e).map (fun c' => chans.set h c')

/-- The loop body of `Publish`: non-blocking send to every handle in `hs`,
in order. -/
def publishList {E : Type} (chans : List (Chan E)) (e : E) (hs : List Nat) :
    Option (List (Chan E)) :=
  hs.foldlM (fun cs h => sendTo cs e h) chans

/-- `Publish(event)`: under the lock, attempt a non-blocking send to every
registered subscription, in registry order. -/
def Publish {E : Type} (s : BusState E) (e : E) : Option (BusState E) :=
  (publishList s.chans e s.subscribers).map (fun cs => { s with chans := cs })

/-- A sequence of `Publish` calls with no interleaving operation. -/
def PublishAll {E : Type} (s : BusState E) (es : List E) : Option (BusState E) :=
  es.foldlM Publish s

/-- `close(ch)`: closing an already-closed channel panics (`none`). -/
def closeChan {E : Type} (c : Chan E) : Option (Chan E) :=
  if c.closed then none else some { c with closed := true }

/-- `Unsubscribe(ch)`: scan the registry for the handle; if present, remove
its first occurrence (preserving the order of the rest) and close its
channel; otherwise do nothing. -/
def Unsubscribe {E : Type} (s : BusState E) (h : Nat) : Option (BusState E) :=
  if s.subscribers.contains h then
    match s.chans[h]? with
    | none => none
    | some c =>
      (closeChan c).map (fun c' =>
        { chans := s.chans.set h c', subscribers := s.subscribers.erase h })
  else some s

/-- `Subscribers()`: the current registry contents. -/
def Subscribers {E : Type} (s : BusState E) : List Nat := s.subscribers

/-- One iteration of `Close`'s loop: close the channel at handle `h`. -/
def closeTo {E : Type} (chans : List (Chan E)) (h : Nat) :
    Option (List (Chan E)) :=
  match chans[h]? with
  | none => none
  | some c => (closeChan c).map (fun c' => chans.set h c')

/-- The loop body of `Close`: close every handle in `hs`, in order. -/
def closeList {E : Type} (chans : List (Chan E)) (hs : List Nat) :
    Option (List (Chan E)) :=
  hs.foldlM closeTo chans

/-- `Close()`: close every registered channel and clear the registry. -/
def Close {E : Type} (s : BusState E) : Option (BusState E) :=
  (closeList s.chans s.subscribers).map (fun cs => { chans := cs, subscribers := [] })

/-- The result of a Go receive `<-ch`: a buffered value, end-of-stream on a
closed drained channel, or blocking on an open empty channel. -/
inductive RecvResult (E : Type) where
  | value : E → Chan E → RecvResult E
  | closed : RecvResult E
  | wouldBlock : RecvResult E
deriving DecidableEq, Repr

/-- `<-ch`: take the oldest buffered event if any; a closed empty channel
yields end-of-stream; an open empty channel would block. -/
def recv {E : Type} (c : Chan E) : RecvResult E :=
  match c.buffer with
  | e :: rest => RecvResult.value e { c with buffer := rest }
  | [] => if c.closed then RecvResult.closed else RecvResult.wouldBlock

/-- One step of the bus: any single public operation that returns normally. -/
inductive Step (E : Type) : BusState E → BusState E → Prop where
  | subscribe (s : BusState E) (c : Nat) : Step E s (Subscribe s c).2
  | publish (s s' : BusState E) (e : E) : Publish s e = some s' → Step E s s'
  | unsub (s s' : BusState E) (h : Nat) : Unsubscribe s h = some s' → Step E s s'
  | close (s s' : BusState E) : Close s = some s' → Step E s s'

/-- Bus states reachable from `New` by public operations. -/
inductive Reachable (E : Type) : BusState E → Prop where
  | init : Reachable E New
  | step {s s' : BusState E} : Reachable E s → Step E s s' → Reachable E s'

/-- `h` names an existing, still-open channel of `s`. -/
def chanOpen {E : Type} (s : BusState E) (h : Nat) : Bool :=
  match s.chans[h]? with
  | some c => !c.closed
  | none => false

/-- The registry invariant: no handle is registered twice, and every
registered handle points to an existing, still-open channel. -/
def WF {E : Type} (s : BusState E) : Prop :=
  s.subscribers.Nodup ∧ ∀ h ∈ s.subscribers, chanOpen s h = true

/-! ### Basic lemmas about the embedded operations -/

theorem contains_iff {l : List Nat} {a : Nat} : l.contains a = true ↔ a ∈ l :=
  List.elem_iff

theorem chanOpen_iff {E : Type} {s : BusState E} {h : Nat} :
    chanOpen s h = true ↔ ∃ c, s.chans[h]? = some c ∧ c.closed = false := by
  unfold chanOpen
  cases hc : s.chans[h]? with
  | none => simp
  | some c => cases hcl : c.closed <;> simp [hcl]

theorem push_closed {E : Type} (c : Chan E) (e : E) : (push c e).closed = c.closed := by
  unfold push; split <;> rfl

theorem sendTo_of_open {E : Type} {chans : List (Chan E)} {h : Nat} {c : Chan E}
    (hc : chans[h]? = some c) (hop : c.closed = false) (e : E) :
    sendTo chans e h = some (chans.set h (push c e)) := by
  simp [sendTo, hc, trySend, hop]

theorem sendTo_eq_some {E : Type} {chans cs : List (Chan E)} {e : E} {h : Nat}
    (hs : sendTo chans e h = some cs) :
    ∃ c, chans[h]? = some c ∧ c.closed = false ∧ cs = chans.set h (push c e) := by
  unfold sendTo trySend at hs
  cases hc : chans[h]? with
  | none => simp [hc] at hs
  | some c =>
    cases hcl : c.closed with
    | true => simp [hc, hcl] at hs
    | false =>
      simp [hc, hcl] at hs
      exact ⟨c, rfl, hcl, hs.symm⟩

theorem publishList_nil {E : Type} (chans : List (Chan E)) (e : E) :
    publishList chans e [] = some chans := rfl

theorem publishList_cons {E : Type} (chans : List (Chan E)) (e : E) (a : Nat) (t : List Nat) :
    publishList chans e (a :: t) =
      (sendTo chans e a).bind (fun cs => publishList cs e t) := rfl

theorem publishList_not_mem {E : Type} {e : E} (hs : List Nat) :
    ∀ (chans cs : List (Chan E)) (h : Nat),
      publishList chans e hs = some cs → h ∉ hs → cs[h]? = chans[h]? := by
  induction hs with
  | nil =>
    intro chans cs h hp _
    rw [publishList_nil] at hp
    cases hp; rfl
  | cons a t ih =>
    intro chans cs h hp hnm
    rw [publishList_cons] at hp
    obtain ⟨cs₁, h₁, h₂⟩ := Option.bind_eq_some.mp hp
    obtain ⟨c, hc, hcl, rfl⟩ := sendTo_eq_some h₁
    have hne : a ≠ h := by
      intro hha; apply hnm; rw [← hha]; exact List.mem_cons_self a t
    rw [ih _ cs h h₂ (fun ht => hnm (List.mem_cons_of_mem a ht)),
        List.getElem?_set_ne hne]

theorem publishList_length {E : Type} {e : E} (hs : List Nat) :
    ∀ (chans cs : List (Chan E)),
      publishList chans e hs = some cs → cs.length = chans.length := by
  induction hs with
  | nil =>
    intro chans cs hp
    rw [publishList_nil] at hp
    cases hp; rfl
  | cons a t ih =>
    intro chans cs hp
    rw [publishList_cons] at hp
    obtain ⟨cs₁, h₁, h₂⟩ := Option.bind_eq_some.mp hp
    obtain ⟨c, hc, hcl, rfl⟩ := sendTo_eq_some h₁
    rw [ih _ _ h₂, List.length_set]

theorem publishList_some {E : Type} {e : E} (hs : List Nat) :
    ∀ (chans : List (Chan E)),
      (∀ h ∈ hs, ∃ c, chans[h]? = some c ∧ c.closed = false) →
      ∃ cs, publishList chans e hs = some cs := by
  induction hs with
  | nil => intro chans _; exact ⟨chans, rfl⟩
  | cons a t ih =>
    intro chans hop
    obtain ⟨c, hc, hcl⟩ := hop a (List.mem_cons_self a t)
    have hlt : a < chans.length := (List.getElem?_eq_some_iff.mp hc).1
    have hop' : ∀ h ∈ t,
        ∃ c₀, (chans.set a (push c e))[h]? = some c₀ ∧ c₀.closed = false := by
      intro h hm
      obtain ⟨c₀, hc₀, hcl₀⟩ := hop h (List.mem_cons_of_mem a hm)
      by_cases hha : a = h
      · subst hha
        refine ⟨push c e, List.getElem?_set_self hlt, ?_⟩
        rw [push_closed]; exact hcl
      · exact ⟨c₀, by rw [List.getElem?_set_ne hha]; exact hc₀, hcl₀⟩
    obtain ⟨cs, hcs⟩ := ih _ hop'
    refine ⟨cs, ?_⟩
    rw [publishList_cons, sendTo_of_open hc hcl e]
    simpa using hcs

theorem publishList_mem {E : Type} {e : E} (hs : List Nat) :
    ∀ (chans cs : List (Chan E)),
      publishList chans e hs = some cs → hs.Nodup →
      ∀ h ∈ hs, ∀ c, chans[h]? = some c → cs[h]? = some (push c e) := by
  induction hs with
  | nil => intro _ _ _ _ h hm; exact absurd hm (List.not_mem_nil h)
  | cons a t ih =>
    intro chans cs hp hnd h hm c hc
    rw [publishList_cons] at hp
    obtain ⟨cs₁, h₁, h₂⟩ := Option.bind_eq_some.mp hp
    obtain ⟨c₁, hc₁, hcl₁, rfl⟩ := sendTo_eq_some h₁
    rcases List.mem_cons.mp hm with rfl | hmt
    · have hnt : h ∉ t := (List.nodup_cons.mp hnd).1
      rw [publishList_not_mem t _ cs h h₂ hnt]
      have hlt : h < chans.length := (List.getElem?_eq_some_iff.mp hc).1
      rw [List.getElem?_set_self hlt]
      rw [hc] at hc₁
      obtain rfl : c₁ = c := (Option.some_inj.mp hc₁).symm
      rfl
    · have hne : a ≠ h := by
        intro hha; subst hha; exact (List.nodup_cons.mp hnd).1 hmt
      exact ih _ _ h₂ (List.nodup_cons.mp hnd).2 h hmt c
        (by rw [List.getElem?_set_ne hne]; exact hc)

theorem closeTo_of_open {E : Type} {chans : List (Chan E)} {h : Nat} {c : Chan E}
    (hc : chans[h]? = some c) (hop : c.closed = false) :
    closeTo chans h = some (chans.set h { c with closed := true }) := by
  simp [closeTo, hc, closeChan, hop]

theorem closeList_nil {E : Type} (chans : List (Chan E)) :
    closeList chans [] = some chans := rfl

theorem closeList_cons {E : Type} (chans : List (Chan E)) (a : Nat) (t : List Nat) :
    closeList chans (a :: t) = (closeTo chans a).bind (fun cs => closeList cs t) := rfl

theorem closeList_spec {E : Type} (hs : List Nat) :
    ∀ (chans : List (Chan E)), hs.Nodup →
      (∀ h ∈ hs, ∃ c, chans[h]? = some c ∧ c.closed = false) →
      ∃ cs, closeList chans hs = some cs ∧
        (∀ h, h ∉ hs → cs[h]? = chans[h]?) ∧
        (∀ h ∈ hs, ∀ c, chans[h]? = some c → cs[h]? = some { c with closed := true }) := by
  induction hs with
  | nil =>
    intro chans _ _
    exact ⟨chans, rfl, fun _ _ => rfl, fun h hm => absurd hm (List.not_mem_nil h)⟩
  | cons a t ih =>
    intro chans hnd hop
    obtain ⟨c, hc, hcl⟩ := hop a (List.mem_cons_self a t)
    have hlt : a < chans.length := (List.getElem?_eq_some_iff.mp hc).1
    have hant : a ∉ t := (List.nodup_cons.mp hnd).1
    have hop' : ∀ h ∈ t,
        ∃ c₀, (chans.set a { c with closed := true })[h]? = some c₀ ∧ c₀.closed = false := by
      intro h hm
      obtain ⟨c₀, hc₀, hcl₀⟩ := hop h (List.mem_cons_of_mem a hm)
      have hne : a ≠ h := by intro hha; subst hha; exact hant hm
      exact ⟨c₀, by rw [List.getElem?_set_ne hne]; exact hc₀, hcl₀⟩
    obtain ⟨cs, hcs, hnotm, hmem⟩ := ih _ (List.nodup_cons.mp hnd).2 hop'
    refine ⟨cs, ?_, ?_, ?_⟩
    · rw [closeList_cons, closeTo_of_open hc hcl]
      simpa using hcs
    · intro h hnm
      have hne : a ≠ h := by
        intro hha; apply hnm; rw [← hha]; exact List.mem_cons_self a t
      rw [hnotm h (fun hmt => hnm (List.mem_cons_of_mem a hmt)),
          List.getElem?_set_ne hne]
    · intro h hm c₀ hc₀
      rcases List.mem_cons.mp hm with rfl | hmt
      · rw [hnotm h hant, List.getElem?_set_self hlt]
        rw [hc₀] at hc
        obtain rfl : c = c₀ := Option.some_inj.mp hc.symm
        rfl
      · have hne : a ≠ h := by intro hha; subst hha; exact hant hmt
        exact hmem h hmt c₀ (by rw [List.getElem?_set_ne hne]; exact hc₀)

/-! ### Inversion lemmas for the bus operations -/

theorem Publish_eq_some {E : Type} {s s' : BusState E} {e : E}
    (hp : Publish s e = some s') :
    ∃ cs, publishList s.chans e s.subscribers = some cs ∧ s' = ⟨cs, s.subscribers⟩ := by
  obtain ⟨cs, h1, h2⟩ := Option.map_eq_some'.mp hp
  exact ⟨cs, h1, by rw [← h2]⟩

theorem Publish_of_publishList {E : Type} {s : BusState E} {e : E}
    {cs : List (Chan E)} (hcs : publishList s.chans e s.subscribers = some cs) :
    Publish s e = some ⟨cs, s.subscribers⟩ := by
  unfold Publish
  rw [hcs]
  rfl

theorem Close_eq_some {E : Type} {s s' : BusState E} (hp : Close s = some s') :
    ∃ cs, closeList s.chans s.subscribers = some cs ∧ s' = ⟨cs, []⟩ := by
  obtain ⟨cs, h1, h2⟩ := Option.map_eq_some'.mp hp
  exact ⟨cs, h1, h2.symm⟩

theorem Close_of_closeList {E : Type} {s : BusState E}
    {cs : List (Chan E)} (hcs : closeList s.chans s.subscribers = some cs) :
    Close s = some ⟨cs, []⟩ := by
  unfold Close
  rw [hcs]
  rfl

theorem unsub_noop {E : Type} {s : BusState E} {h : Nat} (hmem : h ∉ s.subscribers) :
    Unsubscribe s h = some s := by
  unfold Unsubscribe
  rw [if_neg (fun hc => hmem (contains_iff.mp hc))]

theorem Unsubscribe_mem_eq {E : Type} {s : BusState E} {h : Nat} {c : Chan E}
    (hc : s.chans[h]? = some c) (hcl : c.closed = false) (hmem : h ∈ s.subscribers) :
    Unsubscribe s h =
      some ⟨s.chans.set h { c with closed := true }, s.subscribers.erase h⟩ := by
  unfold Unsubscribe
  rw [if_pos (contains_iff.mpr hmem), hc]
  simp [closeChan, hcl]

theorem Unsubscribe_eq_some_mem {E : Type} {s s' : BusState E} {h : Nat}
    (hmem : h ∈ s.subscribers) (hp : Unsubscribe s h = some s') :
    ∃ c, s.chans[h]? = some c ∧ c.closed = false ∧
      s' = ⟨s.chans.set h { c with closed := true }, s.subscribers.erase h⟩ := by
  unfold Unsubscribe at hp
  rw [if_pos (contains_iff.mpr hmem)] at hp
  cases hc : s.chans[h]? with
  | none => rw [hc] at hp; cases hp
  | some c =>
    rw [hc] at hp
    cases hcl : c.closed with
    | true => simp [closeChan, hcl] at hp
    | false =>
      simp [closeChan, hcl] at hp
      exact ⟨c, rfl, hcl, hp.symm⟩

/-! ### The registry invariant is preserved by every operation -/

theorem WF.open_of_mem {E : Type} {s : BusState E} (hwf : WF s) {h : Nat}
    (hm : h ∈ s.subscribers) :
    ∃ c, s.chans[h]? = some c ∧ c.closed = false :=
  chanOpen_iff.mp (hwf.2 h hm)

theorem WF.lt_of_mem {E : Type} {s : BusState E} (hwf : WF s) {h : Nat}
    (hm : h ∈ s.subscribers) : h < s.chans.length := by
  obtain ⟨c, hc, _⟩ := hwf.open_of_mem hm
  exact (List.getElem?_eq_some_iff.mp hc).1

theorem wf_New {E : Type} : WF (New : BusState E) :=
  ⟨List.nodup_nil, fun h hm => absurd hm (List.not_mem_nil h)⟩

theorem wf_subscribe {E : Type} {s : BusState E} (hwf : WF s) (cap : Nat) :
    WF (Subscribe s cap).2 := by
  constructor
  · show (s.subscribers ++ [s.chans.length]).Nodup
    rw [List.nodup_append]
    refine ⟨hwf.1, List.nodup_singleton _, ?_⟩
    intro x hx hx'
    obtain rfl : x = s.chans.length := List.mem_singleton.mp hx'
    exact absurd (hwf.lt_of_mem hx) (lt_irrefl _)
  · intro h hm
    rcases List.mem_append.mp hm with hm' | hm'
    · obtain ⟨c, hc, hcl⟩ := hwf.open_of_mem hm'
      have hlt := (List.getElem?_eq_some_iff.mp hc).1
      show chanOpen ⟨s.chans ++ [_], _⟩ h = true
      simp [chanOpen, List.getElem?_append_left hlt, hc, hcl]
    · obtain rfl : h = s.chans.length := List.mem_singleton.mp hm'
      show chanOpen ⟨s.chans ++ [_], _⟩ s.chans.length = true
      simp [chanOpen, List.getElem?_concat_length]

theorem wf_publish {E : Type} {s s' : BusState E} {e : E} (hwf : WF s)
    (hp : Publish s e = some s') : WF s' := by
  obtain ⟨cs, hcs, rfl⟩ := Publish_eq_some hp
  refine ⟨hwf.1, ?_⟩
  intro h hm
  obtain ⟨c, hc, hcl⟩ := hwf.open_of_mem hm
  have hset := publishList_mem s.subscribers s.chans cs hcs hwf.1 h hm c hc
  simp [chanOpen, hset, push_closed, hcl]

theorem wf_unsub {E : Type} {s s' : BusState E} {h : Nat} (hwf : WF s)
    (hp : Unsubscribe s h = some s') : WF s' := by
  by_cases hmem : h ∈ s.subscribers
  · obtain ⟨c, hc, hcl, rfl⟩ := Unsubscribe_eq_some_mem hmem hp
    refine ⟨hwf.1.erase h, ?_⟩
    intro x hx
    obtain ⟨hxh, hxs⟩ := (List.Nodup.mem_erase_iff hwf.1).mp hx
    obtain ⟨c₀, hc₀, hcl₀⟩ := hwf.open_of_mem hxs
    simp [chanOpen, List.getElem?_set_ne (Ne.symm hxh), hc₀, hcl₀]
  · rw [unsub_noop hmem] at hp
    obtain rfl : s = s' := Option.some_inj.mp hp
    exact hwf

theorem wf_close {E : Type} {s s' : BusState E} (_hwf : WF s)
    (hp : Close s = some s') : WF s' := by
  obtain ⟨cs, hcs, rfl⟩ := Close_eq_some hp
  exact ⟨List.nodup_nil, fun h hm => absurd hm (List.not_mem_nil h)⟩

theorem reachable_wf {E : Type} {s : BusState E} (hr : Reachable E s) : WF s := by
  induction hr with
  | init => exact wf_New
  | step _ hstep ih =>
    cases hstep with
    | subscribe c => exact wf_subscribe ih c
    | publish s' e hp => exact wf_publish ih hp
    | unsub s' h hp => exact wf_unsub ih hp
    | close s' hp => exact wf_close ih hp

/-! ### Publishing to a single subscriber -/

theorem Publish_single {E : Type} (cap : Nat) (b : List E) (e : E) :
    Publish (⟨[⟨cap, b, false⟩], [0]⟩ : BusState E) e =
      some ⟨[push ⟨cap, b, false⟩ e], [0]⟩ := rfl

theorem PublishAll_nil {E : Type} (s : BusState E) : PublishAll s [] = some s := rfl

theorem PublishAll_cons {E : Type} (s : BusState E) (e : E) (t : List E) :
    PublishAll s (e :: t) = (Publish s e).bind (fun s₁ => PublishAll s₁ t) := rfl

theorem publishAll_single {E : Type} (es : List E) :
    ∀ (cap : Nat) (b : List E), b.length ≤ cap →
      PublishAll (⟨[⟨cap, b, false⟩], [0]⟩ : BusState E) es =
        some ⟨[⟨cap, b ++ es.take (cap - b.length), false⟩], [0]⟩ := by
  induction es with
  | nil =>
    intro cap b _
    simp [PublishAll]
  | cons e t ih =>
    intro cap b hb
    by_cases hlt : b.length < cap
    · have hstep : Publish (⟨[⟨cap, b, false⟩], [0]⟩ : BusState E) e =
          some ⟨[⟨cap, b ++ [e], false⟩], [0]⟩ := by
        rw [Publish_single]; simp [push, hlt]
      rw [PublishAll_cons, hstep]
      show PublishAll (⟨[⟨cap, b ++ [e], false⟩], [0]⟩ : BusState E) t = _
      rw [ih cap (b ++ [e]) (by simp [List.length_append]; omega)]
      have h1 : cap - b.length = (cap - (b.length + 1)) + 1 := by omega
      simp [h1, List.take_succ_cons]
    · have hstep : Publish (⟨[⟨cap, b, false⟩], [0]⟩ : BusState E) e =
          some ⟨[⟨cap, b, false⟩], [0]⟩ := by
        rw [Publish_single]; simp [push, hlt]
      rw [PublishAll_cons, hstep]
      show PublishAll (⟨[⟨cap, b, false⟩], [0]⟩ : BusState E) t = _
      rw [ih cap b hb]
      have hcap : cap - b.length = 0 := by omega
      simp [hcap]

/-- `h` names an existing channel of `s` whose queue is not full. -/
def hasRoom {E : Type} (s : BusState E) (h : Nat) : Bool :=
  match s.chans[h]? with
  | some c => c.buffer.length < c.capacity
  | none => false

theorem hasRoom_iff {E : Type} {s : BusState E} {h : Nat} :
    hasRoom s h = true ↔
      ∃ c, s.chans[h]? = some c ∧ c.buffer.length < c.capacity := by
  unfold hasRoom
  cases hc : s.chans[h]? with
  | none => simp
  | some c => simp

instance {E : Type} (s : BusState E) : Decidable (WF s) :=
  inferInstanceAs (Decidable (s.subscribers.Nodup ∧ ∀ h ∈ s.subscribers, chanOpen s h = true))

/-! ### The claims -/

/-- C1 (Isolation): publishing the sequence `es` to a bus whose only
subscription was created by `Subscribe cap`, with no receive in between,
succeeds and leaves that subscription's queue holding exactly the first
`min (es.length) cap` events in publish order; the remaining events are
never present in the queue. -/
theorem publish_isolation {E : Type} (cap : Nat) (es : List E) :
    PublishAll ((Subscribe (New : BusState E) cap).2) es =
      some ⟨[⟨cap, es.take (min es.length cap), false⟩], [0]⟩ := by
  have h := publishAll_single es cap [] (Nat.zero_le cap)
  have hsub : (Subscribe (New : BusState E) cap).2 = ⟨[⟨cap, [], false⟩], [0]⟩ := rfl
  rw [hsub, h]
  have htake : es.take cap = es.take (min es.length cap) := by
    rw [List.take_eq_take]
    omega
  simp [htake]

/-- C2 (Fan-out): on a well-formed bus state whose registered subscriptions
all have non-full queues, a single `Publish e` returns normally (never an
error), keeps the registry unchanged, and enqueues `e` at the back of every
registered subscription's queue; unregistered channels are untouched. -/
theorem publish_fan_out {E : Type} (s : BusState E) (e : E) (hwf : WF s)
    (hroom : ∀ h ∈ s.subscribers, hasRoom s h = true) :
    ∃ s', Publish s e = some s' ∧
      s'.subscribers = s.subscribers ∧
      (∀ h ∈ s.subscribers, ∀ c, s.chans[h]? = some c →
        s'.chans[h]? = some { c with buffer := c.buffer ++ [e] }) ∧
      (∀ h, h ∉ s.subscribers → s'.chans[h]? = s.chans[h]?) := by
  obtain ⟨cs, hcs⟩ :=
    publishList_some s.subscribers s.chans (fun h hm => hwf.open_of_mem hm)
  refine ⟨⟨cs, s.subscribers⟩, Publish_of_publishList hcs, rfl, ?_, ?_⟩
  · intro h hm c hc
    have hset := publishList_mem s.subscribers s.chans cs hcs hwf.1 h hm c hc
    obtain ⟨c', hc', hroom'⟩ := hasRoom_iff.mp (hroom h hm)
    rw [hc] at hc'
    obtain rfl : c = c' := Option.some_inj.mp hc'
    show cs[h]? = some { c with buffer := c.buffer ++ [e] }
    rw [hset]
    simp [push, hroom']
  · intro h hnm
    show cs[h]? = s.chans[h]?
    exact publishList_not_mem s.subscribers s.chans cs h hcs hnm

/-- Witness for C2 at a concrete bus with two registered subscriptions. -/
theorem publish_fan_out_witness :
    ∃ s', Publish (⟨[⟨1, [], false⟩, ⟨1, [], false⟩], [0, 1]⟩ : BusState Nat) 5 = some s' ∧
      s'.subscribers = [0, 1] ∧
      (∀ h ∈ [0, 1], ∀ c,
        (⟨[⟨1, [], false⟩, ⟨1, [], false⟩], [0, 1]⟩ : BusState Nat).chans[h]? = some c →
        s'.chans[h]? = some { c with buffer := c.buffer ++ [5] }) ∧
      (∀ h, h ∉ [0, 1] →
        s'.chans[h]? =
          (⟨[⟨1, [], false⟩, ⟨1, [], false⟩], [0, 1]⟩ : BusState Nat).chans[h]?) :=
  publish_fan_out _ 5 (by decide) (by decide)

/-- C3 (Unsubscribe terminates the stream): on a well-formed bus state with
`h` registered, `Unsubscribe h` returns normally, removes `h` from the
registry preserving the relative order of the remaining subscriptions,
decreases the subscriber count by exactly one, closes `h`'s channel (so a
receive after the buffered events are drained yields end-of-stream), and a
subsequent `Publish` leaves `h`'s channel untouched. -/
theorem unsubscribe_terminates {E : Type} (s : BusState E) (h : Nat)
    (hwf : WF s) (hmem : h ∈ Subscribers s) :
    ∃ s', Unsubscribe s h = some s' ∧
      Subscribers s' = (Subscribers s).erase h ∧
      List.Sublist (Subscribers s') (Subscribers s) ∧
      (Subscribers s').length + 1 = (Subscribers s).length ∧
      (∀ c, s.chans[h]? = some c →
        s'.chans[h]? = some { c with closed := true } ∧
        recv { c with buffer := ([] : List E), closed := true } = RecvResult.closed) ∧
      (∀ e s'', Publish s' e = some s'' → s''.chans[h]? = s'.chans[h]?) := by
  obtain ⟨c, hc, hcl⟩ := hwf.open_of_mem hmem
  refine ⟨⟨s.chans.set h { c with closed := true }, (Subscribers s).erase h⟩,
    Unsubscribe_mem_eq hc hcl hmem, rfl, ?_, ?_, ?_, ?_⟩
  · exact List.erase_sublist h (Subscribers s)
  · show ((Subscribers s).erase h).length + 1 = (Subscribers s).length
    rw [List.length_erase_of_mem hmem]
    have hpos : 0 < (Subscribers s).length :=
      List.length_pos.mpr (List.ne_nil_of_mem hmem)
    omega
  · intro c₀ hc₀
    rw [hc₀] at hc
    obtain rfl : c₀ = c := Option.some_inj.mp hc
    have hlt : h < s.chans.length := (List.getElem?_eq_some_iff.mp hc₀).1
    refine ⟨?_, rfl⟩
    show (s.chans.set h { c₀ with closed := true })[h]? = _
    rw [List.getElem?_set_self hlt]
  · intro e s'' hp
    obtain ⟨cs, hcs, rfl⟩ := Publish_eq_some hp
    show cs[h]? = _
    exact publishList_not_mem _ _ cs h hcs (hwf.1.not_mem_erase)

/-- Witness for C3 at a concrete bus with two registered subscriptions. -/
theorem unsubscribe_terminates_witness :
    ∃ s', Unsubscribe (⟨[⟨1, [], false⟩, ⟨1, [], false⟩], [0, 1]⟩ : BusState Nat) 0 = some s' ∧
      Subscribers s' = [1] ∧
      List.Sublist (Subscribers s') [0, 1] ∧
      (Subscribers s').length + 1 = 2 ∧
      (∀ c, (⟨[⟨1, [], false⟩, ⟨1, [], false⟩], [0, 1]⟩ : BusState Nat).chans[0]? = some c →
        s'.chans[0]? = some { c with closed := true } ∧
        recv { c with buffer := ([] : List Nat), closed := true } = RecvResult.closed) ∧
      (∀ e s'', Publish s' e = some s'' → s''.chans[0]? = s'.chans[0]?) :=
  unsubscribe_terminates _ 0 (by decide) (by decide)

/-- C4 (Close is total): on a well-formed bus state, `Close` returns
normally, empties the registry, and closes the channel of every
subscription that was registered. -/
theorem close_total {E : Type} (s : BusState E) (hwf : WF s) :
    ∃ s', Close s = some s' ∧ Subscribers s' = [] ∧
      ∀ h ∈ Subscribers s, ∀ c, s.chans[h]? = some c →
        s'.chans[h]? = some { c with closed := true } := by
  obtain ⟨cs, hcs, _, hmem⟩ := closeList_spec s.subscribers s.chans hwf.1
    (fun h hm => hwf.open_of_mem hm)
  refine ⟨⟨cs, []⟩, Close_of_closeList hcs, rfl, ?_⟩
  intro h hm c hc
  show cs[h]? = _
  exact hmem h hm c hc

/-- Witness for C4 at a concrete bus with two registered subscriptions. -/
theorem close_total_witness :
    ∃ s', Close (⟨[⟨1, [], false⟩, ⟨1, [], false⟩], [0, 1]⟩ : BusState Nat) = some s' ∧
      Subscribers s' = [] ∧
      ∀ h ∈ [0, 1], ∀ c,
        (⟨[⟨1, [], false⟩, ⟨1, [], false⟩], [0, 1]⟩ : BusState Nat).chans[h]? = some c →
        s'.chans[h]? = some { c with closed := true } :=
  close_total _ (by decide)

/-- C5 counterexample: on the bus obtained by `Subscribe 1` from a fresh bus,
the first `Close` returns normally, and a second `Close` on the resulting
state also returns normally and changes nothing — it does not crash, because
the first `Close` emptied the registry. -/
theorem close_twice_cex :
    Close ((Subscribe (New : BusState Nat) 1).2) = some ⟨[⟨1, [], true⟩], []⟩ ∧
    Close (⟨[⟨1, [], true⟩], []⟩ : BusState Nat) = some ⟨[⟨1, [], true⟩], []⟩ := by
  decide

/-- C5 (amended): calling `Close` a second time after a first `Close` is a
harmless no-op, not a fatal error: the first `Close` empties the registry, so
the second closes no queue, changes nothing, and returns normally. -/
theorem close_after_close_noop {E : Type} (s s₁ : BusState E)
    (hclose : Close s = some s₁) : Close s₁ = some s₁ := by
  obtain ⟨cs, _, rfl⟩ := Close_eq_some hclose
  rfl

/-- Witness for the amended C5 at a concrete bus. -/
theorem close_after_close_noop_witness :
    Close (⟨[⟨1, [], true⟩], []⟩ : BusState Nat) = some ⟨[⟨1, [], true⟩], []⟩ :=
  close_after_close_noop ((Subscribe (New : BusState Nat) 1).2) _ (by decide)

/-- C6 (Unknown handle is a no-op): `Unsubscribe` on a handle not currently
in the registry returns the state exactly unchanged and closes no queue. -/
theorem unsubscribe_unknown {E : Type} (s : BusState E) (h : Nat)
    (hmem : h ∉ Subscribers s) : Unsubscribe s h = some s :=
  unsub_noop hmem

/-- Witness for C6: unsubscribing a never-issued handle from a fresh bus. -/
theorem unsubscribe_unknown_witness :
    Unsubscribe (New : BusState Nat) 7 = some (New : BusState Nat) :=
  unsubscribe_unknown New 7 (by decide)

/-- C7 (Concrete scenario): `Subscribe 2` twice yields handles `0` and `1`;
publishing `"a"`, `"b"`, `"c"` leaves both queues holding exactly
`["a", "b"]` in order with `"c"` dropped; `Unsubscribe` of the first handle
closes its channel (end-of-stream after draining `"a"` then `"b"`) and
leaves the registry `[1]`; `Close` then closes the second channel
(end-of-stream after draining) and empties the registry. -/
theorem concrete_scenario :
    (Subscribe (New : BusState String) 2).1 = 0 ∧
    (Subscribe ((Subscribe (New : BusState String) 2).2) 2).1 = 1 ∧
    PublishAll ((Subscribe ((Subscribe (New : BusState String) 2).2) 2).2)
      ["a", "b", "c"] =
      some ⟨[⟨2, ["a", "b"], false⟩, ⟨2, ["a", "b"], false⟩], [0, 1]⟩ ∧
    Unsubscribe (⟨[⟨2, ["a", "b"], false⟩, ⟨2, ["a", "b"], false⟩], [0, 1]⟩ :
        BusState String) 0 =
      some ⟨[⟨2, ["a", "b"], true⟩, ⟨2, ["a", "b"], false⟩], [1]⟩ ∧
    Subscribers (⟨[⟨2, ["a", "b"], true⟩, ⟨2, ["a", "b"], false⟩], [1]⟩ :
        BusState String) = [1] ∧
    recv (⟨2, ["a", "b"], true⟩ : Chan String) =
      RecvResult.value "a" ⟨2, ["b"], true⟩ ∧
    recv (⟨2, ["b"], true⟩ : Chan String) = RecvResult.value "b" ⟨2, [], true⟩ ∧
    recv (⟨2, [], true⟩ : Chan String) = RecvResult.closed ∧
    Close (⟨[⟨2, ["a", "b"], true⟩, ⟨2, ["a", "b"], false⟩], [1]⟩ :
        BusState String) =
      some ⟨[⟨2, ["a", "b"], true⟩, ⟨2, ["a", "b"], true⟩], []⟩ ∧
    Subscribers (⟨[⟨2, ["a", "b"], true⟩, ⟨2, ["a", "b"], true⟩], []⟩ :
        BusState String) = [] := by
  decide

/-- C8 (No-duplicate invariant): in every bus state reachable from a fresh
bus by the public operations, no handle appears twice in the registry. -/
theorem registry_nodup {E : Type} (s : BusState E) (hr : Reachable E s) :
    (Subscribers s).Nodup :=
  (reachable_wf hr).1

/-- Witness for C8 on the reachable state obtained by one `Subscribe`. -/
theorem registry_nodup_witness :
    (Subscribers ((Subscribe (New : BusState Nat) 1).2)).Nodup :=
  registry_nodup _ (Reachable.step Reachable.init (Step.subscribe New 1))

/-- C9 (Single close by construction): in every reachable bus state, every
handle currently in the registry points to a still-open channel — a queue is
only ever closed in the same step that removes it from the registry, so no
channel can be closed twice. -/
theorem registry_chans_open {E : Type} (s : BusState E) (hr : Reachable E s) :
    ∀ h ∈ Subscribers s, ∃ c, s.chans[h]? = some c ∧ c.closed = false :=
  fun _ hm => (reachable_wf hr).open_of_mem hm

/-- Witness for C9 on the reachable state obtained by one `Subscribe`. -/
theorem registry_chans_open_witness :
    ∃ c, ((Subscribe (New : BusState Nat) 1).2).chans[0]? = some c ∧
      c.closed = false :=
  registry_chans_open _ (Reachable.step Reachable.init (Step.subscribe New 1))
    0 (by decide)

/-- C10 (Post-Close behavior): after a successful `Close`, no operation can
fail: a second `Close` is a no-op, `Publish` delivers to no one and returns
normally, `Unsubscribe` of any handle is a no-op, and `Subscribe cap`
registers a fresh open subscription of capacity `cap` exactly as on a fresh
bus. -/
theorem post_close_safe {E : Type} (s s₁ : BusState E)
    (hclose : Close s = some s₁) :
    Close s₁ = some s₁ ∧
    (∀ e, Publish s₁ e = some s₁) ∧
    (∀ h, Unsubscribe s₁ h = some s₁) ∧
    (∀ cap, Subscribers (Subscribe s₁ cap).2 = [(Subscribe s₁ cap).1] ∧
      (Subscribe s₁ cap).2.chans[(Subscribe s₁ cap).1]? = some ⟨cap, [], false⟩) := by
  obtain ⟨cs, _, rfl⟩ := Close_eq_some hclose
  refine ⟨rfl, fun e => rfl, fun h => rfl, fun cap => ⟨rfl, ?_⟩⟩
  show (cs ++ [⟨cap, [], false⟩])[cs.length]? = some ⟨cap, [], false⟩
  exact List.getElem?_concat_length cs _

/-- Witness for C10 at a concrete bus closed after one `Subscribe`. -/
theorem post_close_safe_witness :
    Close (⟨[⟨1, [], true⟩], []⟩ : BusState Nat) = some ⟨[⟨1, [], true⟩], []⟩ ∧
    Publish (⟨[⟨1, [], true⟩], []⟩ : BusState Nat) 9 = some ⟨[⟨1, [], true⟩], []⟩ ∧
    Unsubscribe (⟨[⟨1, [], true⟩], []⟩ : BusState Nat) 0 =
      some ⟨[⟨1, [], true⟩], []⟩ ∧
    Subscribers (Subscribe (⟨[⟨1, [], true⟩], []⟩ : BusState Nat) 3).2 = [1] := by
  obtain ⟨h1, h2, h3, h4⟩ :=
    post_close_safe ((Subscribe (New : BusState Nat) 1).2)
      (⟨[⟨1, [], true⟩], []⟩ : BusState Nat) (by decide)
  exact ⟨h1, h2 9, h3 0, (h4 3).1⟩

end EventBus
